import Mathlib

/-!
Verification development for the mcp-google-assistant server.

JavaScript strings are embedded as lists of characters (`JSString`);
header maps are embedded as a structure holding the two authorization
keys the code reads; the session registry (the global `sessionHeaders`
object) is an association list keyed by session id.  All definitions
are translated from the TypeScript source (`src/index.ts`,
`src/services/gmail.ts`, `src/services/gcalendar.ts`); the only
spec-modelled definition is the base64url encoder, which lives upstream
(Gmail) and not in this repository.
-/

set_option maxRecDepth 10000

/-- A JavaScript string, embedded as its sequence of characters. -/
abbrev JSString := List Char

/-- The literal JavaScript string "Bearer " (seven characters). -/
def bearerLit : JSString := "Bearer ".toList

/-- JS `s.startsWith(p)` over the embedding: first argument is the
sought initial segment, second the string. -/
def jsStartsWith : JSString → JSString → Bool
  | [], _ => true
  | _ :: _, [] => false
  | p :: ps, c :: cs => p = c && jsStartsWith ps cs

/-- A header value in Node/Express: either a single string or an array
of strings (`string | string[]`). -/
inductive HeaderValue where
  | str (value : JSString)
  | vlist (values : List JSString)
deriving DecidableEq, Repr

/-- The request-header fields read by `extractBearerToken` in
`src/index.ts`: the `authorization` and `Authorization` keys, each
possibly absent (`undefined`). -/
structure RequestHeaders where
  authorization : Option HeaderValue
  Authorization : Option HeaderValue
deriving DecidableEq, Repr

/-- JS falsiness of a header value: `undefined` and the empty string
are falsy; an array (even empty) is truthy. -/
def jsFalsyHeader : Option HeaderValue → Bool
  | none => true
  | some (.str v) => v.isEmpty
  | some (.vlist _) => false

/-- JS `a || b` on header values: yields `a` when truthy, else `b`. -/
def jsOrHeader (a b : Option HeaderValue) : Option HeaderValue :=
  if jsFalsyHeader a then b else a

/-- `extractBearerToken` from `src/index.ts`:
reads `headers.authorization || headers.Authorization`, returns null
when falsy; takes the first element when the value is an array; returns
null when that element is missing or empty or does not start with the
literal `"Bearer "`; otherwise returns `authValue.substring(7)`. -/
def extractBearerToken (headers : RequestHeaders) : Option JSString :=
  let authHeader := jsOrHeader headers.authorization headers.Authorization
  if jsFalsyHeader authHeader then none
  else
    let authValue : Option JSString :=
      match authHeader with
      | some (.vlist values) => values.head?
      | some (.str value) => some value
      | none => none
    match authValue with
    | none => none
    | some v =>
      if v.isEmpty then none
      else if jsStartsWith bearerLit v then some (v.drop 7)
      else none

/-- Outcome of constructing a Gmail/Calendar service client: either a
client bound to the given access token, or a typed service error
carrying a machine code (a thrown `GmailServiceError`). -/
inductive ServiceResult where
  | ok (accessToken : JSString)
  | error (code : String)
deriving DecidableEq, Repr

/-- `GmailService.fromBearerToken` from `src/services/gmail.ts`:
rejects an empty argument with `MISSING_BEARER_TOKEN`; strips a leading
`"Bearer "` if present; rejects an empty remaining token with
`INVALID_BEARER_TOKEN`; otherwise constructs the service bound to the
token (the constructor re-checks non-emptiness, already guaranteed). -/
def GmailService_fromBearerToken (bearerToken : JSString) : ServiceResult :=
  if bearerToken.isEmpty then .error "MISSING_BEARER_TOKEN"
  else
    let token := if jsStartsWith bearerLit bearerToken then bearerToken.drop 7 else bearerToken
    if token.isEmpty then .error "INVALID_BEARER_TOKEN"
    else .ok token

/-- A session identifier (an opaque UUID string). -/
abbrev SessionId := String

/-- The global `sessionHeaders` object of `src/index.ts`, mapping each
session id to the most recently stored request headers, embedded as an
association list. -/
abbrev SessionRegistry := List (SessionId × RequestHeaders)

/-- Lookup `sessionHeaders[sessionId]`. -/
def lookupHeaders : SessionRegistry → SessionId → Option RequestHeaders
  | [], _ => none
  | (s, h) :: rest, sid => if s = sid then some h else lookupHeaders rest sid

/-- Assignment `sessionHeaders[sessionId] = headers`: overwrites the
entry for the key if present, otherwise inserts it. -/
def storeHeaders : SessionRegistry → SessionId → RequestHeaders → SessionRegistry
  | [], sid, h => [(sid, h)]
  | (s, old) :: rest, sid, h =>
    if s = sid then (s, h) :: rest else (s, old) :: storeHeaders rest sid h

/-- The known-session branch of `app.post` for the `/mcp` route in
`src/index.ts`: when the request carries a known `mcp-session-id`, the
handler executes `sessionHeaders[sessionId] = req.headers` before
`transport.handleRequest` dispatches the request. -/
def handlePostKnownSession (registry : SessionRegistry) (sessionId : SessionId)
    (reqHeaders : RequestHeaders) : SessionRegistry :=
  storeHeaders registry sessionId reqHeaders

/-- `createGmailServiceFromSession` from `src/index.ts`: reads the
session's stored headers (`NO_SESSION_CONTEXT` when absent), extracts
the bearer token (`if (!token)` treats both `null` and the empty string
as missing, giving `MISSING_AUTHORIZATION`), then builds the client via
`GmailService.fromBearerToken`. -/
def createGmailServiceFromSession (registry : SessionRegistry) (sessionId : SessionId) :
    ServiceResult :=
  match lookupHeaders registry sessionId with
  | none => .error "NO_SESSION_CONTEXT"
  | some headers =>
    match extractBearerToken headers with
    | none => .error "MISSING_AUTHORIZATION"
    | some token =>
      if token.isEmpty then .error "MISSING_AUTHORIZATION"
      else GmailService_fromBearerToken token

/-- Request headers carrying a single-string `authorization` value and
no `Authorization` key. -/
def authHeaders (v : JSString) : RequestHeaders :=
  { authorization := some (.str v), Authorization := none }

/-- A character the splitting regex of `truncateText` treats as
whitespace. -/
def isWsChar (c : Char) : Bool := c.isWhitespace

/-- Maximal runs of non-whitespace characters, accumulator-style (the
accumulator holds the current run reversed). -/
def wordRunsAux : JSString → JSString → List JSString
  | acc, [] => if acc.isEmpty then [] else [acc.reverse]
  | acc, c :: cs =>
    if isWsChar c then
      if acc.isEmpty then wordRunsAux [] cs
      else acc.reverse :: wordRunsAux [] cs
    else wordRunsAux (c :: acc) cs

/-- The maximal non-whitespace runs of a string. -/
def wordRuns (s : JSString) : List JSString := wordRunsAux [] s

/-- JS `text.trim().split(/\s+/)`: the whitespace-separated runs when
the trimmed text is non-empty, and the single-element list holding the
empty string when it is empty (JS: splitting the empty string yields
one empty string). -/
def jsSplitWords (s : JSString) : List JSString :=
  match wordRuns s with
  | [] => [[]]
  | w :: ws => w :: ws

/-- JS `words.join(' ')`. -/
def joinSp : List JSString → JSString
  | [] => []
  | [w] => w
  | w :: w2 :: ws => w ++ ' ' :: joinSp (w2 :: ws)

/-- The literal ellipsis suffix appended by `truncateText`. -/
def ellipsisLit : JSString := "...".toList

/-- The record returned by `GmailService.truncateText`. -/
structure TruncateResult where
  truncatedText : JSString
  wordCount : Nat
  isTruncated : Bool
deriving DecidableEq, Repr

/-- `truncateText` from `src/services/gmail.ts`: empty text maps to the
empty result; otherwise the text is split into whitespace-separated
words; when the word count is at most the cap the text is returned
verbatim, else the first `maxWords` words are joined with single spaces
and the literal ellipsis is appended. -/
def truncateText (text : JSString) (maxWords : Nat) : TruncateResult :=
  if text.isEmpty then { truncatedText := [], wordCount := 0, isTruncated := false }
  else
    let words := jsSplitWords text
    let originalWordCount := words.length
    if originalWordCount ≤ maxWords then
      { truncatedText := text, wordCount := originalWordCount, isTruncated := false }
    else
      { truncatedText := joinSp (words.take maxWords) ++ ellipsisLit,
        wordCount := originalWordCount, isTruncated := true }

/-- The word count `truncateText` reports for a text (0 for empty
text, else the length of the JS split). -/
def jsWordCount (text : JSString) : Nat :=
  if text.isEmpty then 0 else (jsSplitWords text).length

/-- Append a suffix to the last element of a word list (yielding the
one-element list holding the suffix when the list is empty); used to
restate `joinSp ws ++ suffix` as a join. -/
def appendToLast (e : JSString) : List JSString → List JSString
  | [] => [e]
  | [w] => [w ++ e]
  | w :: w2 :: ws => w :: appendToLast e (w2 :: ws)

/-- `maxWords = options.maxWords ?? 300` in
`GmailService.getEmailDetails`. -/
def effectiveMaxWords (maxWords : Option Nat) : Nat := maxWords.getD 300

/-- Body-text handling in `parseMessageToEmailDetails`: truncate only
when `maxWords > 0`, so a cap of 0 returns the extracted text without
truncation. -/
def extractedBody (fullTextBody : JSString) (maxWords : Nat) : JSString :=
  if maxWords > 0 then (truncateText fullTextBody maxWords).truncatedText else fullTextBody

/-- The `maxWords` bounds of `EmailDetailsOptionsSchema` in
`src/services/gmail.ts`: `z.number().min(0).max(1000)`. -/
def serviceMaxWordsAccepts (n : Int) : Bool := 0 ≤ n && n ≤ 1000

/-- The `maxWords` bounds declared by the `gmail_get_details` tool in
`src/index.ts`: `z.number().min(300).max(3000)`. -/
def toolMaxWordsAccepts (n : Int) : Bool := 300 ≤ n && n ≤ 3000

/-- The `maxWords` default declared by the `gmail_get_details` tool in
`src/index.ts`: `.default(1000)` (its describe string claims 300). -/
def toolMaxWordsDefault : Int := 1000

/-- The URL-safe base64 alphabet (RFC 4648 section 5). -/
def b64UrlAlphabet : List Char :=
  "ABCDEFGHIJKLMNOPQRSTUVWXYZabcdefghijklmnopqrstuvwxyz0123456789-_".toList

/-- Character for a 6-bit value in the URL-safe alphabet. -/
def b64UrlChar (k : Nat) : Char := b64UrlAlphabet.getD k '?'

/-- Modelled from the spec: the URL-safe base64 encoder (no padding,
`-`/`_` substitutions) that produces the message-body data this
repository decodes; the encoder runs upstream (Gmail) and is not part
of this repository.  Bytes are numbers below 256; three bytes map to
four characters, a two-byte remainder to three and a one-byte
remainder to two. -/
def encodeBase64Url : List Nat → List Char
  | [] => []
  | [b1] => [b64UrlChar (b1 / 4), b64UrlChar (b1 % 4 * 16)]
  | [b1, b2] =>
    [b64UrlChar (b1 / 4), b64UrlChar (b1 % 4 * 16 + b2 / 16), b64UrlChar (b2 % 16 * 4)]
  | b1 :: b2 :: b3 :: rest =>
    b64UrlChar (b1 / 4) :: b64UrlChar (b1 % 4 * 16 + b2 / 16) ::
    b64UrlChar (b2 % 16 * 4 + b3 / 64) :: b64UrlChar (b3 % 64) :: encodeBase64Url rest

/-- The character translation of `decodeBase64Url` in
`src/services/gmail.ts`: `-` to `+` and `_` to `/`. -/
def b64Translate (c : Char) : Char :=
  if c = '-' then '+' else if c = '_' then '/' else c

/-- The padding restoration of `decodeBase64Url`: right-pad with `=` to
a multiple of four. -/
def b64Pad (l : List Char) : List Char :=
  l ++ List.replicate ((4 - l.length % 4) % 4) '='

/-- The 6-bit value of a standard base64 character (0 on anything
else), as used by the platform base64 decoder. -/
def b64Val (c : Char) : Nat :=
  if 'A' ≤ c ∧ c ≤ 'Z' then c.toNat - 65
  else if 'a' ≤ c ∧ c ≤ 'z' then c.toNat - 97 + 26
  else if '0' ≤ c ∧ c ≤ '9' then c.toNat - 48 + 52
  else if c = '+' then 62
  else if c = '/' then 63
  else 0

/-- The platform base64 decoder (`Buffer.from(padded, 'base64')`) on
well-formed padded input: each group of four characters yields three
bytes, or fewer when `=` padding terminates the group. -/
def b64DecodeBytes : List Char → List Nat
  | c1 :: c2 :: c3 :: c4 :: rest =>
    let v1 := b64Val c1
    let v2 := b64Val c2
    if c3 = '=' then [v1 * 4 + v2 / 16]
    else
      let v3 := b64Val c3
      if c4 = '=' then [v1 * 4 + v2 / 16, v2 % 16 * 16 + v3 / 4]
      else
        (v1 * 4 + v2 / 16) :: (v2 % 16 * 16 + v3 / 4) :: (v3 % 4 * 64 + b64Val c4) ::
          b64DecodeBytes rest
  | _ => []

/-- `GmailService.decodeBase64Url` from `src/services/gmail.ts` at the
byte level: translate the URL-safe characters, restore `=` padding to a
multiple of four, then base64-decode.  (The final
`Buffer.toString('utf-8')` step interprets these bytes as UTF-8; for
every valid UTF-8 encoding that interpretation is the inverse of the
string's encoding, so the round trip of the claim is stated on the
byte sequences.) -/
def decodeBase64Url (data : List Char) : List Nat :=
  b64DecodeBytes (b64Pad (data.map b64Translate))

/-- What `batchGetEmailDetails` does before any upstream I/O: return
an empty result, raise a typed error, or issue the one batch network
request. -/
inductive BatchAction where
  | returnEmpty
  | throwError (code : String)
  | issueNetworkRequest (body : String)
deriving DecidableEq, Repr

/-- The request boundary token of `batchGetEmailDetails`. -/
def batchBoundary : String := "batch_boundary"

/-- The multipart batch request body of `batchGetEmailDetails`: one
sub-request per id, tagged `Content-ID: item-<position>`, closed by the
final boundary marker. -/
def batchRequestBody (messageIds : List String) : String :=
  String.join (messageIds.enum.map (fun p =>
    "--" ++ batchBoundary ++ "\r\nContent-Type: application/http\r\nContent-ID: item-" ++
      toString p.1 ++ "\r\n\r\nGET /gmail/v1/users/me/messages/" ++ p.2 ++
      "?format=full\r\n"))
    ++ "--" ++ batchBoundary ++ "--"

/-- The entry validation of `GmailService.batchGetEmailDetails` in
`src/services/gmail.ts`: an empty id list returns `[]` immediately;
more than 100 ids raises `BATCH_SIZE_EXCEEDED`; otherwise the one
batch HTTP request is issued. -/
def batchGetEmailDetailsEntry (messageIds : List String) : BatchAction :=
  if messageIds.length = 0 then .returnEmpty
  else if messageIds.length > 100 then .throwError "BATCH_SIZE_EXCEEDED"
  else .issueNetworkRequest (batchRequestBody messageIds)

/-- A calendar event attendee (`Schema$EventAttendee`): the fields the
decline flow touches, each optional as in the upstream schema. -/
structure EventAttendee where
  email : Option String
  displayName : Option String
  responseStatus : Option String
deriving DecidableEq, Repr

/-- The attendee-list rewrite of `GCalendarService.declineEvent`: map
every attendee whose email equals the caller's resolved email to the
same record with response status "declined" (spread preserves the other
fields); append a fresh declined entry for the caller when no attendee
matched. -/
def declineUpdatedAttendees (attendees : List EventAttendee) (userEmail : String) :
    List EventAttendee :=
  let updated := attendees.map (fun a =>
    if a.email = some userEmail then { a with responseStatus := some "declined" } else a)
  if attendees.any (fun a => a.email = some userEmail) then updated
  else updated ++
    [{ email := some userEmail, displayName := none, responseStatus := some "declined" }]

/-- The parameters of the `events.patch` call issued by
`declineEvent`. -/
structure EventsPatchParams where
  attendees : List EventAttendee
  sendNotifications : Bool
deriving DecidableEq, Repr

/-- The patch request built by `declineEvent` in
`src/services/gcalendar.ts`: attendees from `event.attendees || []`
rewritten as above, with `sendNotifications: true` hard-coded to notify
the organizer. -/
def declineEventPatch (eventAttendees : Option (List EventAttendee)) (userEmail : String) :
    EventsPatchParams :=
  { attendees := declineUpdatedAttendees (eventAttendees.getD []) userEmail,
    sendNotifications := true }

/-- A typed client error: human message, stable machine code, optional
numeric status (`GmailServiceError` / `GCalendarServiceError`). -/
structure ServiceError where
  message : String
  code : String
  statusCode : Option Nat
deriving DecidableEq, Repr

/-- The shapes of values reaching the catch blocks of the two service
clients: a zod validation failure, an already-typed client error, or an
upstream HTTP failure with optional status, optional
`response.data.error.message` and optional `message`. -/
inductive CaughtError where
  | zodError (issueMessages : List String)
  | typed (e : ServiceError)
  | upstream (status : Option Nat) (dataErrorMessage : Option String)
      (message : Option String)
deriving DecidableEq, Repr

/-- JS `error?.response?.status`: only an upstream HTTP failure has a
response object. -/
def caughtResponseStatus : CaughtError → Option Nat
  | .upstream status _ _ => status
  | _ => none

/-- JS `a || b` on an optional string against a fallback (the empty
string is falsy). -/
def jsOrString (a : Option String) (b : String) : String :=
  match a with
  | some s => if s = "" then b else s
  | none => b

/-- `error?.response?.data?.error?.message || error?.message ||
'Unknown error'`. -/
def upstreamErrorMessage (dataErrorMessage message : Option String) : String :=
  jsOrString dataErrorMessage (jsOrString message "Unknown error")

/-- `GmailService.handleGmailError` from `src/services/gmail.ts`: zod
failures become `VALIDATION_ERROR`; a typed error is re-thrown
unchanged; then the HTTP status selects `AUTHENTICATION_FAILED` (401),
`PERMISSION_DENIED` (403), `RATE_LIMIT_EXCEEDED` (429), or the default
`API_ERROR` carrying the upstream message and status code. -/
def handleGmailError (error : CaughtError) (defaultMessage : String) : ServiceError :=
  match error with
  | .zodError msgs =>
    { message := "Invalid input parameters: " ++ String.intercalate ", " msgs,
      code := "VALIDATION_ERROR", statusCode := none }
  | .typed e => e
  | .upstream status d m =>
    if status = some 401 then
      { message := "Authentication failed. Invalid or expired access token.",
        code := "AUTHENTICATION_FAILED", statusCode := some 401 }
    else if status = some 403 then
      { message := "Insufficient permissions or quota exceeded.",
        code := "PERMISSION_DENIED", statusCode := some 403 }
    else if status = some 429 then
      { message := "Rate limit exceeded. Please try again later.",
        code := "RATE_LIMIT_EXCEEDED", statusCode := some 429 }
    else
      { message := defaultMessage ++ ": " ++ upstreamErrorMessage d m,
        code := "API_ERROR", statusCode := status }

/-- `GCalendarService.handleCalendarError` from
`src/services/gcalendar.ts`: as the Gmail handler, with the extra 404
case mapped to `NOT_FOUND`. -/
def handleCalendarError (error : CaughtError) (defaultMessage : String) : ServiceError :=
  match error with
  | .zodError msgs =>
    { message := "Invalid input parameters: " ++ String.intercalate ", " msgs,
      code := "VALIDATION_ERROR", statusCode := none }
  | .typed e => e
  | .upstream status d m =>
    if status = some 401 then
      { message := "Authentication failed. Invalid or expired access token.",
        code := "AUTHENTICATION_FAILED", statusCode := some 401 }
    else if status = some 403 then
      { message := "Insufficient permissions or quota exceeded.",
        code := "PERMISSION_DENIED", statusCode := some 403 }
    else if status = some 404 then
      { message := "Calendar or event not found.",
        code := "NOT_FOUND", statusCode := some 404 }
    else if status = some 429 then
      { message := "Rate limit exceeded. Please try again later.",
        code := "RATE_LIMIT_EXCEEDED", statusCode := some 429 }
    else
      { message := defaultMessage ++ ": " ++ upstreamErrorMessage d m,
        code := "API_ERROR", statusCode := status }

/-- The catch block of `GmailService.getEmailDetails`: a 404 response
is translated to `EMAIL_NOT_FOUND` before the shared handler runs. -/
def getEmailDetailsCatch (messageId : String) (error : CaughtError) : ServiceError :=
  if caughtResponseStatus error = some 404 then
    { message := "Email with ID " ++ messageId ++ " not found",
      code := "EMAIL_NOT_FOUND", statusCode := some 404 }
  else handleGmailError error "Failed to fetch email details"

/-- The options record accepted by `GmailService.getEmailList`
(`EmailListOptions`), every field optional. -/
structure EmailListOptions where
  maxResults : Option Nat
  pageToken : Option String
  query : Option String
  labelIds : Option (List String)
  includeSpamTrash : Option Bool
deriving DecidableEq, Repr

/-- The parameters of the upstream `users.messages.list` call. -/
structure GmailMessagesListParams where
  userId : String
  maxResults : Nat
  pageToken : Option String
  q : Option String
  labelIds : List String
  includeSpamTrash : Bool
deriving DecidableEq, Repr

/-- The upstream list request built by `GmailService.getEmailList` in
`src/services/gmail.ts`: `labelIds = options.labelIds ?? ['INBOX']`,
`maxResults ?? 10`, `includeSpamTrash ?? false`. -/
def getEmailListRequest (options : EmailListOptions) : GmailMessagesListParams :=
  { userId := "me",
    maxResults := options.maxResults.getD 10,
    pageToken := options.pageToken,
    q := options.query,
    labelIds := options.labelIds.getD ["INBOX"],
    includeSpamTrash := options.includeSpamTrash.getD false }

/-- The options `GmailService.searchEmails` passes to `getEmailList`:
`labelIds = inboxOnly ? ['INBOX'] : undefined`. -/
def searchEmailsOptions (query : String) (maxResults : Nat) (inboxOnly : Bool) :
    EmailListOptions :=
  { query := some query, maxResults := some maxResults,
    labelIds := if inboxOnly then some ["INBOX"] else none,
    pageToken := none, includeSpamTrash := none }

theorem jsStartsWith_append (p t : JSString) : jsStartsWith p (p ++ t) = true := by
  induction p with
  | nil => rfl
  | cons c cs ih => simp [jsStartsWith, ih]

theorem drop_length_append (p t : JSString) : (p ++ t).drop p.length = t := by
  induction p with
  | nil => rfl
  | cons c cs ih => simp [ih]

theorem lookupHeaders_storeHeaders_self (registry : SessionRegistry) (sid : SessionId)
    (h : RequestHeaders) : lookupHeaders (storeHeaders registry sid h) sid = some h := by
  induction registry with
  | nil => simp [storeHeaders, lookupHeaders]
  | cons entry rest ih =>
    obtain ⟨s, old⟩ := entry
    by_cases hs : s = sid
    · simp [storeHeaders, hs, lookupHeaders]
    · simp [storeHeaders, hs, lookupHeaders, ih]

theorem extractBearerToken_bearer_append (t : JSString) (u : Option HeaderValue) :
    extractBearerToken { authorization := some (.str (bearerLit ++ t)), Authorization := u }
      = some t := by
  have hne : (bearerLit ++ t).isEmpty = false := by
    cases t <;> simp [bearerLit]
  have hdrop : (bearerLit ++ t).drop 7 = t := by
    have h7 : bearerLit.length = 7 := by decide
    have := drop_length_append bearerLit t
    rw [h7] at this
    exact this
  simp [extractBearerToken, jsOrHeader, jsFalsyHeader, hne, jsStartsWith_append, hdrop]

/-- C1: in a session whose id is already registered, the POST handler
overwrites (does not merge) the stored headers with the request's
headers before dispatch, so the next tool call extracts its token from
the most recent headers: after a request with `Bearer T1` and a later
request with `Bearer T2`, the dispatched Gmail client authenticates
with `T2`, not `T1`. -/
theorem C1_session_header_overwrite (registry : SessionRegistry) (sid : SessionId)
    (t1 t2 : JSString) (hp : jsStartsWith bearerLit t2 = false) (hne : t2 ≠ []) :
    (∀ h : RequestHeaders,
        lookupHeaders (handlePostKnownSession registry sid h) sid = some h) ∧
    createGmailServiceFromSession
        (handlePostKnownSession
          (handlePostKnownSession registry sid (authHeaders (bearerLit ++ t1)))
          sid (authHeaders (bearerLit ++ t2))) sid = .ok t2 ∧
    (t1 ≠ t2 →
      createGmailServiceFromSession
        (handlePostKnownSession
          (handlePostKnownSession registry sid (authHeaders (bearerLit ++ t1)))
          sid (authHeaders (bearerLit ++ t2))) sid ≠ .ok t1) := by
  have hstore : ∀ h : RequestHeaders,
      lookupHeaders (handlePostKnownSession registry sid h) sid = some h := fun h =>
    lookupHeaders_storeHeaders_self _ sid h
  have hemp : t2.isEmpty = false := by
    cases t2 with
    | nil => exact absurd rfl hne
    | cons c cs => rfl
  have hdispatch : createGmailServiceFromSession
      (handlePostKnownSession
        (handlePostKnownSession registry sid (authHeaders (bearerLit ++ t1)))
        sid (authHeaders (bearerLit ++ t2))) sid = .ok t2 := by
    rw [createGmailServiceFromSession]
    simp only [handlePostKnownSession]
    rw [lookupHeaders_storeHeaders_self]
    have hext : extractBearerToken (authHeaders (bearerLit ++ t2)) = some t2 :=
      extractBearerToken_bearer_append t2 none
    simp [hext, hemp, GmailService_fromBearerToken, hp]
  refine ⟨hstore, hdispatch, fun hneq => ?_⟩
  rw [hdispatch]
  intro hcontr
  exact hneq (by injection hcontr with h12; exact h12.symm)

/-- Witness for C1 at concrete tokens `T1`, `T2`. -/
theorem C1_session_header_overwrite_witness :
    createGmailServiceFromSession
        (handlePostKnownSession
          (handlePostKnownSession [] "session-1" (authHeaders (bearerLit ++ "T1".toList)))
          "session-1" (authHeaders (bearerLit ++ "T2".toList))) "session-1"
      = .ok "T2".toList :=
  (C1_session_header_overwrite [] "session-1" "T1".toList "T2".toList
    (by decide) (by decide)).2.1

theorem extractBearerToken_upper_bearer_append (t : JSString) :
    extractBearerToken { authorization := none, Authorization := some (.str (bearerLit ++ t)) }
      = some t := by
  have hne : (bearerLit ++ t).isEmpty = false := by
    cases t <;> simp [bearerLit]
  have hdrop : (bearerLit ++ t).drop 7 = t := by
    have h7 : bearerLit.length = 7 := by decide
    have := drop_length_append bearerLit t
    rw [h7] at this
    exact this
  simp [extractBearerToken, jsOrHeader, jsFalsyHeader, hne, jsStartsWith_append, hdrop]

theorem extractBearerToken_vlist_bearer_append (t : JSString) (vs : List JSString)
    (u : Option HeaderValue) :
    extractBearerToken
        { authorization := some (.vlist ((bearerLit ++ t) :: vs)), Authorization := u }
      = some t := by
  have hne : (bearerLit ++ t).isEmpty = false := by
    cases t <;> simp [bearerLit]
  have hdrop : (bearerLit ++ t).drop 7 = t := by
    have h7 : bearerLit.length = 7 := by decide
    have := drop_length_append bearerLit t
    rw [h7] at this
    exact this
  simp [extractBearerToken, jsOrHeader, jsFalsyHeader, hne, jsStartsWith_append, hdrop]

/-- C3: the bearer credential extractor returns the substring following
the literal `"Bearer "` prefix of the authorization value (single
string or first list element, under either key casing), and returns
`none` when the header is missing, the value is the empty string, the
value list is empty, or the value does not start with the exact
case-sensitive prefix.  It is a pure total function: no side effects,
no exceptions. -/
theorem C3_extractBearerToken_contract (t v : JSString) (vs : List JSString)
    (hv : jsStartsWith bearerLit v = false) :
    (∀ u, extractBearerToken
        { authorization := some (.str (bearerLit ++ t)), Authorization := u } = some t) ∧
    extractBearerToken
        { authorization := none, Authorization := some (.str (bearerLit ++ t)) } = some t ∧
    (∀ u, extractBearerToken
        { authorization := some (.vlist ((bearerLit ++ t) :: vs)), Authorization := u }
      = some t) ∧
    extractBearerToken { authorization := none, Authorization := none } = none ∧
    extractBearerToken { authorization := some (.str []), Authorization := none } = none ∧
    extractBearerToken { authorization := none, Authorization := some (.str []) } = none ∧
    (∀ u, extractBearerToken
        { authorization := some (.vlist []), Authorization := u } = none) ∧
    extractBearerToken { authorization := some (.str v), Authorization := none } = none ∧
    extractBearerToken
        { authorization := some (.vlist (v :: vs)), Authorization := none } = none := by
  refine ⟨fun u => extractBearerToken_bearer_append t u,
    extractBearerToken_upper_bearer_append t,
    fun u => extractBearerToken_vlist_bearer_append t vs u,
    by simp [extractBearerToken, jsOrHeader, jsFalsyHeader],
    by simp [extractBearerToken, jsOrHeader, jsFalsyHeader],
    by simp [extractBearerToken, jsOrHeader, jsFalsyHeader],
    fun u => by simp [extractBearerToken, jsOrHeader, jsFalsyHeader],
    ?_, ?_⟩
  · cases v with
    | nil => simp [extractBearerToken, jsOrHeader, jsFalsyHeader]
    | cons c cs => simp [extractBearerToken, jsOrHeader, jsFalsyHeader, hv]
  · cases v with
    | nil => simp [extractBearerToken, jsOrHeader, jsFalsyHeader]
    | cons c cs => simp [extractBearerToken, jsOrHeader, jsFalsyHeader, hv]

/-- Witness for C3: "Bearer abc" yields "abc"; the lower-cased prefix
"bearer abc" (wrong case) yields no token. -/
theorem C3_extractBearerToken_contract_witness :
    extractBearerToken
        { authorization := some (.str (bearerLit ++ "abc".toList)), Authorization := none }
      = some "abc".toList ∧
    extractBearerToken
        { authorization := some (.str "bearer abc".toList), Authorization := none } = none :=
  ⟨(C3_extractBearerToken_contract "abc".toList "bearer abc".toList [] (by decide)).1 none,
   (C3_extractBearerToken_contract "abc".toList "bearer abc".toList []
      (by decide)).2.2.2.2.2.2.2.1⟩

/-- C2 counterexample: with stored session headers whose authorization
value is exactly `"Bearer "`, the tool-dispatch path reports
`MISSING_AUTHORIZATION` — neither `INVALID_BEARER_TOKEN` nor
`MISSING_BEARER_TOKEN`, contrary to the claim. -/
theorem C2_counterexample_empty_bearer :
    createGmailServiceFromSession [("session-1", authHeaders bearerLit)] "session-1"
      = .error "MISSING_AUTHORIZATION" ∧
    ¬ (createGmailServiceFromSession [("session-1", authHeaders bearerLit)] "session-1"
        = .error "INVALID_BEARER_TOKEN" ∨
       createGmailServiceFromSession [("session-1", authHeaders bearerLit)] "session-1"
        = .error "MISSING_BEARER_TOKEN") := by
  decide

/-- C2 amended: for every session whose stored headers carry the
authorization value exactly `"Bearer "` (empty token after the prefix),
tool dispatch raises the typed error `MISSING_AUTHORIZATION` (the
extractor returns the empty token, which the session helper treats like
a missing header) and does not crash. -/
theorem C2_amended_empty_bearer (registry : SessionRegistry) (sid : SessionId)
    (h : RequestHeaders) (hlook : lookupHeaders registry sid = some h)
    (hauth : h.authorization = some (.str bearerLit)) :
    createGmailServiceFromSession registry sid = .error "MISSING_AUTHORIZATION" := by
  obtain ⟨a, u⟩ := h
  simp only at hauth
  subst hauth
  rw [createGmailServiceFromSession, hlook]
  have hext : extractBearerToken
      { authorization := some (.str bearerLit), Authorization := u } = some [] := by
    simp [extractBearerToken, jsOrHeader, jsFalsyHeader,
      show bearerLit.isEmpty = false by decide,
      show jsStartsWith bearerLit bearerLit = true by decide,
      show bearerLit.drop 7 = [] by decide]
  simp [hext]

/-- Witness for the amended C2 at a concrete registry. -/
theorem C2_amended_empty_bearer_witness :
    createGmailServiceFromSession [("s2", authHeaders bearerLit)] "s2"
      = .error "MISSING_AUTHORIZATION" :=
  C2_amended_empty_bearer [("s2", authHeaders bearerLit)] "s2" (authHeaders bearerLit)
    (by decide) rfl

/-- C7: the batch detail fetcher raises the typed
`BATCH_SIZE_EXCEEDED` error for more than 100 identifiers before any
network request is issued, and maps the empty identifier list to the
empty result without issuing a network request. -/
theorem C7_batch_size_validation (messageIds : List String)
    (hlen : messageIds.length > 100) :
    batchGetEmailDetailsEntry messageIds = .throwError "BATCH_SIZE_EXCEEDED" ∧
    (∀ body, batchGetEmailDetailsEntry messageIds ≠ .issueNetworkRequest body) ∧
    batchGetEmailDetailsEntry ([] : List String) = .returnEmpty := by
  have h0 : ¬ messageIds.length = 0 := by omega
  have hne : messageIds ≠ [] := by
    intro h
    rw [h] at hlen
    simp at hlen
  refine ⟨by simp [batchGetEmailDetailsEntry, h0, hne, hlen], fun body => ?_, rfl⟩
  simp [batchGetEmailDetailsEntry, h0, hne, hlen]

/-- Witness for C7 at 101 identifiers. -/
theorem C7_batch_size_validation_witness :
    batchGetEmailDetailsEntry (List.replicate 101 "id") = .throwError "BATCH_SIZE_EXCEEDED" :=
  (C7_batch_size_validation (List.replicate 101 "id") (by simp)).1

/-- C10: the search operation builds the same upstream list request
whether its inbox-only flag is true or false: with the flag false it
passes no label filter, and the list operation replaces an absent
label filter with the inbox label, so the request is always
inbox-restricted. -/
theorem C10_search_always_inbox (query : String) (maxResults : Nat) :
    getEmailListRequest (searchEmailsOptions query maxResults false)
      = getEmailListRequest (searchEmailsOptions query maxResults true) ∧
    (searchEmailsOptions query maxResults false).labelIds = none ∧
    (getEmailListRequest (searchEmailsOptions query maxResults false)).labelIds
      = ["INBOX"] := by
  exact ⟨rfl, rfl, rfl⟩

/-- C4: evaluation of the maximum-word-count contract.  At the service
layer the default is 300 when unspecified and a cap of 0 returns the
extracted text untruncated, and the service schema accepts 0 and 300;
but the `gmail_get_details` tool interface declares `min(300)` /
`max(3000)` / `default(1000)`, so it rejects 0 and its default is 1000,
not 300 — contradicting its own describe string "(default: 300)". -/
theorem C4_maxWords_bounds_evaluation :
    effectiveMaxWords none = 300 ∧
    (∀ text : JSString, extractedBody text 0 = text) ∧
    serviceMaxWordsAccepts 0 = true ∧
    serviceMaxWordsAccepts 300 = true ∧
    toolMaxWordsAccepts 0 = false ∧
    toolMaxWordsDefault = 1000 ∧
    toolMaxWordsDefault ≠ 300 :=
  ⟨rfl, fun _ => rfl, by decide, by decide, by decide, rfl, by decide⟩

/-- C9: both service clients translate caught errors uniformly: zod
validation failures yield `VALIDATION_ERROR`; an already-typed error is
re-thrown unchanged; HTTP 401 yields `AUTHENTICATION_FAILED`, 403
`PERMISSION_DENIED`, 429 `RATE_LIMIT_EXCEEDED`; 404 yields
`EMAIL_NOT_FOUND` on the mail detail path and `NOT_FOUND` on the
calendar client; any other failure yields `API_ERROR` carrying the
upstream message and status code. -/
theorem C9_uniform_error_translation :
    (∀ msgs d, (handleGmailError (.zodError msgs) d).code = "VALIDATION_ERROR" ∧
        (handleCalendarError (.zodError msgs) d).code = "VALIDATION_ERROR") ∧
    (∀ e d, handleGmailError (.typed e) d = e ∧ handleCalendarError (.typed e) d = e) ∧
    (∀ d dm m,
      handleGmailError (.upstream (some 401) dm m) d
        = ⟨"Authentication failed. Invalid or expired access token.",
            "AUTHENTICATION_FAILED", some 401⟩ ∧
      handleCalendarError (.upstream (some 401) dm m) d
        = ⟨"Authentication failed. Invalid or expired access token.",
            "AUTHENTICATION_FAILED", some 401⟩ ∧
      handleGmailError (.upstream (some 403) dm m) d
        = ⟨"Insufficient permissions or quota exceeded.", "PERMISSION_DENIED", some 403⟩ ∧
      handleCalendarError (.upstream (some 403) dm m) d
        = ⟨"Insufficient permissions or quota exceeded.", "PERMISSION_DENIED", some 403⟩ ∧
      handleGmailError (.upstream (some 429) dm m) d
        = ⟨"Rate limit exceeded. Please try again later.",
            "RATE_LIMIT_EXCEEDED", some 429⟩ ∧
      handleCalendarError (.upstream (some 429) dm m) d
        = ⟨"Rate limit exceeded. Please try again later.",
            "RATE_LIMIT_EXCEEDED", some 429⟩ ∧
      handleCalendarError (.upstream (some 404) dm m) d
        = ⟨"Calendar or event not found.", "NOT_FOUND", some 404⟩) ∧
    (∀ mid e, caughtResponseStatus e = some 404 →
      getEmailDetailsCatch mid e
        = ⟨"Email with ID " ++ mid ++ " not found", "EMAIL_NOT_FOUND", some 404⟩) ∧
    (∀ status dm m d, status ≠ some 401 → status ≠ some 403 → status ≠ some 429 →
      handleGmailError (.upstream status dm m) d
        = ⟨d ++ ": " ++ upstreamErrorMessage dm m, "API_ERROR", status⟩) ∧
    (∀ status dm m d,
      status ≠ some 401 → status ≠ some 403 → status ≠ some 404 → status ≠ some 429 →
      handleCalendarError (.upstream status dm m) d
        = ⟨d ++ ": " ++ upstreamErrorMessage dm m, "API_ERROR", status⟩) := by
  refine ⟨fun msgs d => ⟨rfl, rfl⟩, fun e d => ⟨rfl, rfl⟩,
    fun d dm m => ⟨rfl, rfl, rfl, rfl, rfl, rfl, rfl⟩,
    fun mid e h404 => by simp [getEmailDetailsCatch, h404],
    fun status dm m d h1 h3 h9 => by simp [handleGmailError, h1, h3, h9],
    fun status dm m d h1 h3 h4 h9 => by simp [handleCalendarError, h1, h3, h4, h9]⟩

/-- Witness for C9 at concrete caught errors (the 404 mail-detail path
and a 500 falling to the default translation). -/
theorem C9_uniform_error_translation_witness :
    getEmailDetailsCatch "m1" (.upstream (some 404) none none)
      = ⟨"Email with ID m1 not found", "EMAIL_NOT_FOUND", some 404⟩ ∧
    handleGmailError (.upstream (some 500) none (some "boom")) "Failed to fetch email list"
      = ⟨"Failed to fetch email list: boom", "API_ERROR", some 500⟩ := by
  refine ⟨C9_uniform_error_translation.2.2.2.1 "m1" (.upstream (some 404) none none) rfl, ?_⟩
  have h := C9_uniform_error_translation.2.2.2.2.1 (some 500) none (some "boom")
    "Failed to fetch email list" (by decide) (by decide) (by decide)
  rw [h]
  decide

/-- C8: the decline-event flow rewrites only matching attendees:
every attendee whose email equals the caller's resolved email keeps its
other fields and gets response status "declined"; every other attendee
entry is unchanged; when the caller's email is absent, the patched list
is the original list with exactly one new declined entry for the
caller appended; and the patch always carries
`sendNotifications = true`. -/
theorem C8_decline_event_attendees (attendees : List EventAttendee) (userEmail : String) :
    ((∃ a ∈ attendees, a.email = some userEmail) →
      (declineUpdatedAttendees attendees userEmail).length = attendees.length ∧
      (∀ (i : Nat) (a : EventAttendee), attendees[i]? = some a →
        a.email ≠ some userEmail →
        (declineUpdatedAttendees attendees userEmail)[i]? = some a) ∧
      (∀ (i : Nat) (a : EventAttendee), attendees[i]? = some a →
        a.email = some userEmail →
        (declineUpdatedAttendees attendees userEmail)[i]?
          = some { a with responseStatus := some "declined" })) ∧
    ((∀ a ∈ attendees, a.email ≠ some userEmail) →
      declineUpdatedAttendees attendees userEmail
        = attendees ++ [⟨some userEmail, none, some "declined"⟩] ∧
      ((declineUpdatedAttendees attendees userEmail).filter
          (fun a => a.email == some userEmail)).length = 1) ∧
    (∀ ev, (declineEventPatch ev userEmail).sendNotifications = true) := by
  constructor
  · intro hex
    have hany : attendees.any (fun a => decide (a.email = some userEmail)) = true := by
      rw [List.any_eq_true]
      obtain ⟨a, ha, hae⟩ := hex
      exact ⟨a, ha, by simp [hae]⟩
    have hupd : declineUpdatedAttendees attendees userEmail
        = attendees.map (fun a =>
            if a.email = some userEmail then { a with responseStatus := some "declined" }
            else a) := by
      simp [declineUpdatedAttendees, hany]
    refine ⟨by simp [hupd], fun i a hia hane => ?_, fun i a hia hae => ?_⟩
    · rw [hupd, List.getElem?_map, hia]
      simp [hane]
    · rw [hupd, List.getElem?_map, hia]
      simp [hae]
  refine ⟨fun hall => ?_, fun ev => rfl⟩
  have hany : attendees.any (fun a => decide (a.email = some userEmail)) = false := by
    rw [List.any_eq_false]
    intro a ha
    simp [hall a ha]
  have hmap : attendees.map (fun a =>
      if a.email = some userEmail then { a with responseStatus := some "declined" }
      else a) = attendees := by
    conv_rhs => rw [← List.map_id attendees]
    exact List.map_congr_left (fun a ha => by simp [hall a ha])
  have hdecl : declineUpdatedAttendees attendees userEmail
      = attendees ++ [⟨some userEmail, none, some "declined"⟩] := by
    simp [declineUpdatedAttendees, hany, hmap]
  refine ⟨hdecl, ?_⟩
  rw [hdecl, List.filter_append]
  have h1 : attendees.filter (fun a => a.email == some userEmail) = [] := by
    rw [List.filter_eq_nil_iff]
    intro a ha
    simp [hall a ha]
  simp [h1]

/-- Witness for C8: a concrete event where the caller is absent from
the attendee list and one where the caller is present. -/
theorem C8_decline_event_attendees_witness :
    declineUpdatedAttendees
        [⟨some "alice", none, some "accepted"⟩] "bob"
      = [⟨some "alice", none, some "accepted"⟩, ⟨some "bob", none, some "declined"⟩] ∧
    (declineUpdatedAttendees
        [⟨some "alice", none, some "accepted"⟩, ⟨some "bob", none, some "tentative"⟩]
        "bob")[1]? = some ⟨some "bob", none, some "declined"⟩ := by
  refine ⟨((C8_decline_event_attendees [⟨some "alice", none, some "accepted"⟩] "bob").2.1
    (by decide)).1, ?_⟩
  have h := ((C8_decline_event_attendees
      [⟨some "alice", none, some "accepted"⟩, ⟨some "bob", none, some "tentative"⟩]
      "bob").1 ⟨⟨some "bob", none, some "tentative"⟩, by decide, rfl⟩).2.2 1
      ⟨some "bob", none, some "tentative"⟩ rfl rfl
  exact h

theorem wordRunsAux_nonws (l : JSString) : ∀ acc : JSString,
    (∀ c ∈ acc, isWsChar c = false) →
    ∀ w ∈ wordRunsAux acc l, w ≠ [] ∧ ∀ c ∈ w, isWsChar c = false := by
  induction l with
  | nil =>
    intro acc hacc w hw
    rw [wordRunsAux] at hw
    cases acc with
    | nil => simp at hw
    | cons a as =>
      simp at hw
      subst hw
      refine ⟨by simp, fun c hc => hacc c ?_⟩
      rcases List.mem_append.mp hc with h | h
      · exact List.mem_cons_of_mem a (List.mem_reverse.mp h)
      · simp at h
        simp [h]
  | cons c cs ih =>
    intro acc hacc w hw
    rw [wordRunsAux] at hw
    by_cases hws : isWsChar c
    · rw [if_pos hws] at hw
      cases acc with
      | nil => exact ih [] (by simp) w (by simpa using hw)
      | cons a as =>
        simp at hw
        rcases hw with hw | hw
        · subst hw
          refine ⟨by simp, fun x hx => hacc x ?_⟩
          rcases List.mem_append.mp hx with h | h
          · exact List.mem_cons_of_mem a (List.mem_reverse.mp h)
          · simp at h
            simp [h]
        · exact ih [] (by simp) w hw
    · rw [if_neg hws] at hw
      refine ih (c :: acc) ?_ w hw
      intro x hx
      rcases List.mem_cons.mp hx with hx | hx
      · subst hx; simpa using hws
      · exact hacc x hx

theorem wordRuns_good (s : JSString) :
    ∀ w ∈ wordRuns s, w ≠ [] ∧ ∀ c ∈ w, isWsChar c = false :=
  wordRunsAux_nonws s [] (by simp)

theorem wordRunsAux_append_nonws (w : JSString) (hw : ∀ c ∈ w, isWsChar c = false) :
    ∀ acc rest, wordRunsAux acc (w ++ rest) = wordRunsAux (w.reverse ++ acc) rest := by
  induction w with
  | nil => intro acc rest; simp
  | cons c cs ih =>
    intro acc rest
    have hc : isWsChar c = false := hw c (by simp)
    have hcs : ∀ x ∈ cs, isWsChar x = false := fun x hx => hw x (by simp [hx])
    rw [List.cons_append, wordRunsAux, if_neg (by simp [hc])]
    rw [ih hcs (c :: acc) rest]
    congr 1
    simp

theorem wordRunsAux_ws_cons (c : Char) (hc : isWsChar c = true) (acc : JSString)
    (rest : JSString) :
    wordRunsAux acc (c :: rest)
      = (if acc.isEmpty then ([] : List JSString) else [acc.reverse])
          ++ wordRunsAux [] rest := by
  rw [wordRunsAux, if_pos hc]
  by_cases h : acc.isEmpty <;> simp [h]

theorem wordRuns_joinSp (ws : List JSString)
    (hws : ∀ w ∈ ws, w ≠ [] ∧ ∀ c ∈ w, isWsChar c = false) :
    wordRuns (joinSp ws) = ws := by
  induction ws with
  | nil => rfl
  | cons w ws2 ih =>
    obtain ⟨hne, hnw⟩ := hws w (by simp)
    have hrevne : w.reverse.isEmpty = false := by
      cases hrw : w.reverse with
      | nil => exact absurd (by simpa using congrArg List.reverse hrw) hne
      | cons a as => rfl
    cases ws2 with
    | nil =>
      show wordRuns (joinSp [w]) = [w]
      rw [show joinSp [w] = w from rfl]
      unfold wordRuns
      have h2 := wordRunsAux_append_nonws w hnw [] []
      simp only [List.append_nil] at h2
      rw [h2, wordRunsAux, hrevne]
      simp
    | cons w2 ws3 =>
      have hrest : ∀ x ∈ w2 :: ws3, x ≠ [] ∧ ∀ c ∈ x, isWsChar c = false :=
        fun x hx => hws x (by simp [hx])
      have ihh := ih hrest
      unfold wordRuns at ihh
      show wordRuns (joinSp (w :: w2 :: ws3)) = w :: w2 :: ws3
      rw [show joinSp (w :: w2 :: ws3) = w ++ ' ' :: joinSp (w2 :: ws3) from rfl]
      unfold wordRuns
      rw [wordRunsAux_append_nonws w hnw [] (' ' :: joinSp (w2 :: ws3))]
      rw [wordRunsAux_ws_cons ' ' (by decide) (w.reverse ++ []) (joinSp (w2 :: ws3))]
      simp only [List.append_nil, hrevne, if_neg (by simp [hrevne] : ¬ w.reverse.isEmpty = true)]
      rw [ihh]
      simp

theorem appendToLast_ne_nil (e : JSString) (ws : List JSString) :
    appendToLast e ws ≠ [] := by
  cases ws with
  | nil => simp [appendToLast]
  | cons w ws2 => cases ws2 <;> simp [appendToLast]

theorem joinSp_cons_ne (w : JSString) (l : List JSString) (h : l ≠ []) :
    joinSp (w :: l) = w ++ ' ' :: joinSp l := by
  cases l with
  | nil => exact absurd rfl h
  | cons a as => rfl

theorem joinSp_append (e : JSString) (ws : List JSString) :
    joinSp ws ++ e = joinSp (appendToLast e ws) := by
  induction ws with
  | nil => rfl
  | cons w ws2 ih =>
    cases ws2 with
    | nil => rfl
    | cons w2 ws3 =>
      have h1 : appendToLast e (w2 :: ws3) ≠ [] := appendToLast_ne_nil e (w2 :: ws3)
      rw [show appendToLast e (w :: w2 :: ws3) = w :: appendToLast e (w2 :: ws3) from rfl]
      rw [joinSp_cons_ne w _ h1, ← ih]
      rw [show joinSp (w :: w2 :: ws3) = w ++ ' ' :: joinSp (w2 :: ws3) from rfl]
      simp

theorem appendToLast_good (e : JSString)
    (he : e ≠ [] ∧ ∀ c ∈ e, isWsChar c = false) :
    ∀ ws : List JSString, (∀ w ∈ ws, w ≠ [] ∧ ∀ c ∈ w, isWsChar c = false) →
    ∀ w ∈ appendToLast e ws, w ≠ [] ∧ ∀ c ∈ w, isWsChar c = false
  | [], _, w, hw => by
    simp [appendToLast] at hw
    subst hw
    exact he
  | [w1], hws, w, hw => by
    simp [appendToLast] at hw
    subst hw
    obtain ⟨h1, h2⟩ := hws w1 (by simp)
    refine ⟨by simp [h1], fun c hc => ?_⟩
    rcases List.mem_append.mp hc with h | h
    exacts [h2 c h, he.2 c h]
  | w1 :: w2 :: ws3, hws, w, hw => by
    rw [show appendToLast e (w1 :: w2 :: ws3) = w1 :: appendToLast e (w2 :: ws3) from rfl]
      at hw
    rcases List.mem_cons.mp hw with h | h
    · subst h
      exact hws w (by simp)
    · exact appendToLast_good e he (w2 :: ws3) (fun x hx => hws x (by simp [hx])) w h

theorem appendToLast_length (e : JSString) (ws : List JSString) :
    (appendToLast e ws).length = max 1 ws.length := by
  induction ws with
  | nil => rfl
  | cons w1 ws2 ih =>
    cases ws2 with
    | nil => rfl
    | cons w2 ws3 =>
      rw [show appendToLast e (w1 :: w2 :: ws3) = w1 :: appendToLast e (w2 :: ws3) from rfl]
      simp only [List.length_cons, ih]
      simp [Nat.max_def]

/-- C5: truncation behaviour of `truncateText`.  When the text's word
count exceeds the cap `N`, the result is exactly the first `N` words
joined by single spaces with the literal ellipsis suffix appended (and
the truncation flag set); when the word count is at most `N`, the text
is returned verbatim with no suffix; and re-truncating an
already-truncated (ellipsis-suffixed) output at the same or a larger
cap `M` returns it unchanged. -/
theorem C5_truncateText_properties (text : JSString) (N M : Nat) (hNM : N ≤ M) :
    (jsWordCount text > N →
      truncateText text N
        = ⟨joinSp ((jsSplitWords text).take N) ++ ellipsisLit, jsWordCount text, true⟩) ∧
    (jsWordCount text ≤ N →
      truncateText text N = ⟨text, jsWordCount text, false⟩) ∧
    ((truncateText text N).isTruncated = true →
      (truncateText (truncateText text N).truncatedText M).truncatedText
        = (truncateText text N).truncatedText) := by
  by_cases hemp : text = []
  · subst hemp
    refine ⟨fun hgt => absurd hgt (by simp [jsWordCount]), fun _ => rfl, fun htr => ?_⟩
    simp [truncateText] at htr
  · have hne : text.isEmpty = false := by
      cases text with
      | nil => exact absurd rfl hemp
      | cons a as => rfl
    have hcount : jsWordCount text = (jsSplitWords text).length := by
      simp [jsWordCount, hne]
    by_cases hle : (jsSplitWords text).length ≤ N
    · have heq : truncateText text N = ⟨text, (jsSplitWords text).length, false⟩ := by
        simp [truncateText, hne, hle]
      refine ⟨fun hgt => ?_, fun _ => by rw [heq, hcount], fun htr => ?_⟩
      · rw [hcount] at hgt
        omega
      · rw [heq] at htr
        simp at htr
    · push_neg at hle
      have heq : truncateText text N
          = ⟨joinSp ((jsSplitWords text).take N) ++ ellipsisLit,
              (jsSplitWords text).length, true⟩ := by
        simp [truncateText, hne, Nat.not_le.mpr hle]
      refine ⟨fun _ => by rw [heq, hcount], fun hle2 => by rw [hcount] at hle2; omega,
        fun _ => ?_⟩
      rw [heq]
      set tk := (jsSplitWords text).take N with htk
      have hsplit_cases : jsSplitWords text = [[]] ∨
          ∀ w ∈ jsSplitWords text, w ≠ [] ∧ ∀ c ∈ w, isWsChar c = false := by
        rcases hwrt : wordRuns text with _ | ⟨r, rs⟩
        · left
          simp [jsSplitWords, hwrt]
        · right
          intro w hw
          refine wordRuns_good text w ?_
          rw [hwrt]
          simpa [jsSplitWords, hwrt] using hw
      have hgoodtk : ∀ w ∈ tk, w ≠ [] ∧ ∀ c ∈ w, isWsChar c = false := by
        rcases hsplit_cases with hc | hc
        · have hN0 : N = 0 := by
            rw [hc] at hle
            simpa using hle
          intro w hw
          rw [htk, hN0] at hw
          simp at hw
        · intro w hw
          rw [htk] at hw
          exact hc w (List.take_subset _ _ hw)
      have hell : ellipsisLit ≠ [] ∧ ∀ c ∈ ellipsisLit, isWsChar c = false := by decide
      have hvs := appendToLast_good ellipsisLit hell tk hgoodtk
      have hjoin : joinSp tk ++ ellipsisLit = joinSp (appendToLast ellipsisLit tk) :=
        joinSp_append ellipsisLit tk
      have hwr : wordRuns (joinSp (appendToLast ellipsisLit tk))
          = appendToLast ellipsisLit tk := wordRuns_joinSp _ hvs
      have hvne : appendToLast ellipsisLit tk ≠ [] := appendToLast_ne_nil _ _
      have houtnil : joinSp tk ++ ellipsisLit ≠ [] := by
        intro h
        rw [List.append_eq_nil] at h
        exact absurd h.2 (by decide)
      have houtne : (joinSp tk ++ ellipsisLit).isEmpty = false := by
        cases hcc : joinSp tk ++ ellipsisLit with
        | nil => exact absurd hcc houtnil
        | cons a as => rfl
      obtain ⟨v, vs2, hv⟩ : ∃ v vs2, appendToLast ellipsisLit tk = v :: vs2 := by
        cases hvv : appendToLast ellipsisLit tk with
        | nil => exact absurd hvv hvne
        | cons a as => exact ⟨a, as, rfl⟩
      have hsplit : jsSplitWords (joinSp tk ++ ellipsisLit) = appendToLast ellipsisLit tk := by
        rw [jsSplitWords, hjoin, hwr, hv]
      have hlentk : tk.length = N := by
        rw [htk, List.length_take]
        omega
      have hlenvs : (appendToLast ellipsisLit tk).length = max 1 N := by
        rw [appendToLast_length, hlentk]
      by_cases hM : (appendToLast ellipsisLit tk).length ≤ M
      · simp [truncateText, houtne, hsplit, hM]
      · have hN0 : N = 0 := by
          rw [hlenvs] at hM
          omega
        have hM0 : M = 0 := by omega
        have htk0 : tk = [] := by
          rw [htk, hN0]
          rfl
        rw [htk0, hM0]
        show (truncateText (joinSp [] ++ ellipsisLit) 0).truncatedText
          = joinSp [] ++ ellipsisLit
        decide

/-- Witness for C5 on "one two three" with caps 2 and 3. -/
theorem C5_truncateText_properties_witness :
    jsWordCount "one two three".toList > 2 ∧
    truncateText "one two three".toList 2
      = ⟨joinSp ((jsSplitWords "one two three".toList).take 2) ++ ellipsisLit,
          jsWordCount "one two three".toList, true⟩ ∧
    (truncateText (truncateText "one two three".toList 2).truncatedText 3).truncatedText
      = (truncateText "one two three".toList 2).truncatedText :=
  ⟨by decide,
   (C5_truncateText_properties "one two three".toList 2 3 (by decide)).1 (by decide),
   (C5_truncateText_properties "one two three".toList 2 3 (by decide)).2.2 (by decide)⟩

theorem b64Val_translate_urlChar :
    ∀ k : Fin 64, b64Val (b64Translate (b64UrlChar k.val)) = k.val := by decide

theorem b64Translate_urlChar_ne_eq :
    ∀ k : Fin 64, b64Translate (b64UrlChar k.val) ≠ '=' := by decide

theorem b64Pad_cons4 (a b c d : Char) (l : List Char) :
    b64Pad (a :: b :: c :: d :: l) = a :: b :: c :: d :: b64Pad l := by
  have hmod : (4 - (l.length + 1 + 1 + 1 + 1) % 4) % 4 = (4 - l.length % 4) % 4 := by
    omega
  simp [b64Pad, hmod]

theorem b64DecodeBytes_pad1 (c1 c2 c3 : Char) (h : c3 ≠ '=') :
    b64DecodeBytes [c1, c2, c3, '=']
      = [b64Val c1 * 4 + b64Val c2 / 16, b64Val c2 % 16 * 16 + b64Val c3 / 4] := by
  simp [b64DecodeBytes, h]

theorem b64DecodeBytes_full (c1 c2 c3 c4 : Char) (rest : List Char)
    (h3 : c3 ≠ '=') (h4 : c4 ≠ '=') :
    b64DecodeBytes (c1 :: c2 :: c3 :: c4 :: rest)
      = (b64Val c1 * 4 + b64Val c2 / 16) :: (b64Val c2 % 16 * 16 + b64Val c3 / 4) ::
        (b64Val c3 % 4 * 64 + b64Val c4) :: b64DecodeBytes rest := by
  simp [b64DecodeBytes, h3, h4]

/-- C6: encoding a byte sequence to URL-safe base64 (no padding,
`-`/`_` substitutions) and decoding it through the source's restoration
algorithm (translate `-` to `+` and `_` to `/`, right-pad with `=` to a
multiple of four, base64-decode) reproduces the original bytes; with
the platform UTF-8 codec this is the round trip on every
printable-ASCII or multi-byte UTF-8 string. -/
theorem C6_base64url_roundtrip :
    ∀ bytes : List Nat, (∀ b ∈ bytes, b < 256) →
      decodeBase64Url (encodeBase64Url bytes) = bytes
  | [], _ => rfl
  | [b1], hb => by
    have h1 : b1 < 256 := hb b1 (by simp)
    have hv1 : b64Val (b64Translate (b64UrlChar (b1 / 4))) = b1 / 4 :=
      b64Val_translate_urlChar ⟨b1 / 4, by omega⟩
    have hv2 : b64Val (b64Translate (b64UrlChar (b1 % 4 * 16))) = b1 % 4 * 16 :=
      b64Val_translate_urlChar ⟨b1 % 4 * 16, by omega⟩
    show b64DecodeBytes [b64Translate (b64UrlChar (b1 / 4)),
        b64Translate (b64UrlChar (b1 % 4 * 16)), '=', '='] = [b1]
    rw [show b64DecodeBytes [b64Translate (b64UrlChar (b1 / 4)),
        b64Translate (b64UrlChar (b1 % 4 * 16)), '=', '=']
      = [b64Val (b64Translate (b64UrlChar (b1 / 4))) * 4
          + b64Val (b64Translate (b64UrlChar (b1 % 4 * 16))) / 16] from rfl]
    rw [hv1, hv2]
    simp only [List.cons.injEq, and_true]
    omega
  | [b1, b2], hb => by
    have h1 : b1 < 256 := hb b1 (by simp)
    have h2 : b2 < 256 := hb b2 (by simp)
    have hv1 : b64Val (b64Translate (b64UrlChar (b1 / 4))) = b1 / 4 :=
      b64Val_translate_urlChar ⟨b1 / 4, by omega⟩
    have hv2 : b64Val (b64Translate (b64UrlChar (b1 % 4 * 16 + b2 / 16)))
        = b1 % 4 * 16 + b2 / 16 :=
      b64Val_translate_urlChar ⟨b1 % 4 * 16 + b2 / 16, by omega⟩
    have hv3 : b64Val (b64Translate (b64UrlChar (b2 % 16 * 4))) = b2 % 16 * 4 :=
      b64Val_translate_urlChar ⟨b2 % 16 * 4, by omega⟩
    have hne3 : b64Translate (b64UrlChar (b2 % 16 * 4)) ≠ '=' :=
      b64Translate_urlChar_ne_eq ⟨b2 % 16 * 4, by omega⟩
    show b64DecodeBytes [b64Translate (b64UrlChar (b1 / 4)),
        b64Translate (b64UrlChar (b1 % 4 * 16 + b2 / 16)),
        b64Translate (b64UrlChar (b2 % 16 * 4)), '='] = [b1, b2]
    rw [b64DecodeBytes_pad1 _ _ _ hne3, hv1, hv2, hv3]
    simp only [List.cons.injEq, and_true]
    exact ⟨by omega, by omega⟩
  | b1 :: b2 :: b3 :: rest, hb => by
    have h1 : b1 < 256 := hb b1 (by simp)
    have h2 : b2 < 256 := hb b2 (by simp)
    have h3 : b3 < 256 := hb b3 (by simp)
    have ih := C6_base64url_roundtrip rest (fun b h => hb b (by simp [h]))
    have hv1 : b64Val (b64Translate (b64UrlChar (b1 / 4))) = b1 / 4 :=
      b64Val_translate_urlChar ⟨b1 / 4, by omega⟩
    have hv2 : b64Val (b64Translate (b64UrlChar (b1 % 4 * 16 + b2 / 16)))
        = b1 % 4 * 16 + b2 / 16 :=
      b64Val_translate_urlChar ⟨b1 % 4 * 16 + b2 / 16, by omega⟩
    have hv3 : b64Val (b64Translate (b64UrlChar (b2 % 16 * 4 + b3 / 64)))
        = b2 % 16 * 4 + b3 / 64 :=
      b64Val_translate_urlChar ⟨b2 % 16 * 4 + b3 / 64, by omega⟩
    have hv4 : b64Val (b64Translate (b64UrlChar (b3 % 64))) = b3 % 64 :=
      b64Val_translate_urlChar ⟨b3 % 64, by omega⟩
    have hne3 : b64Translate (b64UrlChar (b2 % 16 * 4 + b3 / 64)) ≠ '=' :=
      b64Translate_urlChar_ne_eq ⟨b2 % 16 * 4 + b3 / 64, by omega⟩
    have hne4 : b64Translate (b64UrlChar (b3 % 64)) ≠ '=' :=
      b64Translate_urlChar_ne_eq ⟨b3 % 64, by omega⟩
    show b64DecodeBytes (b64Pad (List.map b64Translate
        (b64UrlChar (b1 / 4) :: b64UrlChar (b1 % 4 * 16 + b2 / 16) ::
         b64UrlChar (b2 % 16 * 4 + b3 / 64) :: b64UrlChar (b3 % 64) ::
         encodeBase64Url rest))) = b1 :: b2 :: b3 :: rest
    rw [List.map_cons, List.map_cons, List.map_cons, List.map_cons, b64Pad_cons4]
    rw [b64DecodeBytes_full _ _ _ _ _ hne3 hne4]
    rw [hv1, hv2, hv3, hv4]
    rw [show b64DecodeBytes (b64Pad (List.map b64Translate (encodeBase64Url rest)))
      = decodeBase64Url (encodeBase64Url rest) from rfl, ih]
    simp only [List.cons.injEq]
    exact ⟨by omega, by omega, by omega, trivial⟩

/-- Witness for C6 on the UTF-8 bytes of a multi-byte string. -/
theorem C6_base64url_roundtrip_witness :
    decodeBase64Url (encodeBase64Url [72, 105, 33, 228, 189, 160])
      = [72, 105, 33, 228, 189, 160] :=
  C6_base64url_roundtrip [72, 105, 33, 228, 189, 160] (by decide)
